import Mathlib

/-!
Verification of the return-classification and weekly-summary logic of the
stock-analysis repository (`sp500_analyzer.py` and `stock_analyzer.py`).

The price tables are embedded as lists of rows in chronological order;
prices are rationals (idealizing IEEE floats); pandas/numpy operations are
embedded as the corresponding list functions; Python exceptions (such as
`ZeroDivisionError`) are embedded as `Option`, `none` standing for a raised
exception.
-/

/-- A row of the daily S&P 500 price table kept by `sp500_analyzer.py`: the
calendar year of the trading day and the close price.  Rows are listed in
chronological order, so year keys are nondecreasing along the list. -/
structure Row where
  year : ℕ
  close : ℚ
deriving DecidableEq, Repr

/-- `Series.resample(freq).last()`: group consecutive rows sharing a key and
keep the last value of each group.  For chronologically ordered data this
yields, for each calendar period present in the series, the close of its
last available trading day. -/
def resampleLast {α κ : Type} [DecidableEq κ] (key : α → κ) (val : α → ℚ) :
    List α → List (κ × ℚ)
  | [] => []
  | [a] => [(key a, val a)]
  | a :: b :: rest =>
    if key a = key b then resampleLast key val (b :: rest)
    else (key a, val a) :: resampleLast key val (b :: rest)

/-- `Series.pct_change().dropna()`: the fractional change between adjacent
entries; the first entry, which has no predecessor, is dropped. -/
def pctChangeDropna : List ℚ → List ℚ
  | [] => []
  | [_] => []
  | a :: b :: rest => (b / a - 1) :: pctChangeDropna (b :: rest)

/-- `get_return_category` of `sp500_analyzer.py` (lines 26-34). -/
def get_return_category (return_value : ℚ) : String :=
  if return_value < 0 then "Down Year"
  else if return_value < 6 then "No Return"
  else "Good Return"

/-- `yearly_data = data['Close'].resample('YE').last()` (line 39). -/
def yearlyData (rows : List Row) : List ℚ :=
  (resampleLast Row.year Row.close rows).map Prod.snd

/-- `returns_pct = yearly_data.pct_change().dropna() * 100` (lines 40-46). -/
def returnsPct (rows : List Row) : List ℚ :=
  (pctChangeDropna (yearlyData rows)).map (· * 100)

/-- `down_years = returns_pct[returns_pct < 0]` (lines 49, 54). -/
def downYears (rows : List Row) : List ℚ :=
  (returnsPct rows).filter fun r => decide (r < 0)

/-- `no_return_years = returns_pct[(returns_pct >= 0) & (returns_pct < 6)]`
(lines 50, 55). -/
def noReturnYears (rows : List Row) : List ℚ :=
  (returnsPct rows).filter fun r => decide (0 ≤ r) && decide (r < 6)

/-- `good_return_years = returns_pct[returns_pct >= 6]` (lines 51, 56). -/
def goodReturnYears (rows : List Row) : List ℚ :=
  (returnsPct rows).filter fun r => decide (6 ≤ r)

/-- Python float division, which raises `ZeroDivisionError` on a zero
denominator; `none` embeds the raised exception. -/
def pydiv (a b : ℚ) : Option ℚ :=
  if b = 0 then none else some (a / b)

/-- What `analyze_yearly_returns` hands back to its caller (line 101),
together with whether the verification check (lines 82-85) printed its
mismatch warning. -/
structure YearlyResult where
  returnsPct : List ℚ
  downYears : List ℚ
  noReturnYears : List ℚ
  goodReturnYears : List ℚ
  warning : Bool
deriving DecidableEq, Repr

/-- `analyze_yearly_returns` of `sp500_analyzer.py` (lines 36-101).  The
breakdown prints (lines 77-80) divide each category count by `total_years`,
so when no yearly return was computed the function raises
`ZeroDivisionError` (`none`) instead of returning. -/
def analyze_yearly_returns (rows : List Row) : Option YearlyResult := do
  let ret := returnsPct rows
  let down := ret.filter fun r => decide (r < 0)
  let nret := ret.filter fun r => decide (0 ≤ r) && decide (r < 6)
  let good := ret.filter fun r => decide (6 ≤ r)
  let totalPositive := nret.length + good.length
  let _ ← pydiv (down.length : ℚ) (ret.length : ℚ)
  let _ ← pydiv (nret.length : ℚ) (ret.length : ℚ)
  let _ ← pydiv (good.length : ℚ) (ret.length : ℚ)
  let _ ← pydiv (totalPositive : ℚ) (ret.length : ℚ)
  some { returnsPct := ret
         downYears := down
         noReturnYears := nret
         goodReturnYears := good
         warning := decide (down.length + nret.length + good.length ≠ ret.length) }

/-- `Series.rolling(window=w).apply(f)` read at position `t` (0-based),
with the default `min_periods`: defined once `w` observations are
available, i.e. for `w - 1 ≤ t < length`, where `f` is applied to the
window `xs[t+1-w : t+1]`. -/
def rollingApply {β : Type} (w : ℕ) (f : List ℚ → β) (xs : List ℚ) (t : ℕ) :
    Option β :=
  if t < xs.length ∧ w ≤ t + 1 then some (f ((xs.drop (t + 1 - w)).take w)) else none

/-- The rolling `period`-year annualized return of `analyze_rolling_returns`
(lines 181-184): `(x.iloc[-1] / x.iloc[0]) ** (1/period) - 1` over a window
of `period * 252` observations. -/
noncomputable def rollingReturn (period : ℕ) (xs : List ℚ) (t : ℕ) : Option ℝ :=
  rollingApply (period * 252)
    (fun x => (((x.getLastD 0 : ℚ) : ℝ) / ((x.headD 0 : ℚ) : ℝ)) ^ ((1 : ℝ) / (period : ℝ)) - 1)
    xs t

/-- A row of the price table of `stock_analyzer.py`: the trading day as a
serial day number (numbered so that `day % 7 = 4` falls on a Friday) and the
close price. -/
structure SRow where
  day : ℕ
  close : ℚ
deriving DecidableEq, Repr

/-- The Friday ending the week of day `d`: `resample('W-FRI')` bins every
day to the next Friday (or the day itself when it is a Friday). -/
def weekFriday (d : ℕ) : ℕ := d + (11 - d % 7) % 7

/-- `data = data[~data.index.duplicated(keep='last')]` (line 28): drop
every row whose timestamp occurs again later in the series. -/
def dedupKeepLast : List SRow → List SRow
  | [] => []
  | a :: rest =>
    if rest.any fun b => b.day == a.day then dedupKeepLast rest
    else a :: dedupKeepLast rest

/-- The statistics record built by `analyze_stock` (lines 47-56). -/
structure WeeklyStats where
  totalWeeks : ℕ
  upWeeks : ℕ
  downWeeks : ℕ
  avgUpPct : ℚ
  avgDownPct : ℚ
  currentPrice : ℚ
  ytdChangePct : ℚ
deriving DecidableEq, Repr

/-- Round to the nearest integer, ties going to the even integer (the
rounding used by Python's and numpy's `round`). -/
def roundHalfEven (q : ℚ) : ℤ :=
  if q - ⌊q⌋ < 1 / 2 then ⌊q⌋
  else if 1 / 2 < q - ⌊q⌋ then ⌊q⌋ + 1
  else if Even ⌊q⌋ then ⌊q⌋ else ⌊q⌋ + 1

/-- Python `round(x, 2)`. -/
def round2 (q : ℚ) : ℚ := (roundHalfEven (q * 100) : ℚ) / 100

/-- `np.mean` on a list of floats. -/
def npMean (l : List ℚ) : ℚ := l.sum / (l.length : ℚ)

/-- The weekly close series used by `analyze_stock` (lines 27-31):
deduplicate by timestamp keeping the last occurrence, then
`data['Close'].resample('W-FRI').last()`. -/
def weeklySeries (rows : List SRow) : List ℚ :=
  (resampleLast (fun r => weekFriday r.day) SRow.close (dedupKeepLast rows)).map Prod.snd

/-- `weekly_pct_change = weekly.pct_change().dropna()` (line 32). -/
def weeklyPct (rows : List SRow) : List ℚ :=
  pctChangeDropna (weeklySeries rows)

/-- `analyze_stock` of `stock_analyzer.py` (lines 8-118): `none` when the
downloaded series is empty (lines 22-24), otherwise the statistics record
(lines 47-56, returned at line 112). -/
def analyze_stock (rows : List SRow) : Option WeeklyStats :=
  if rows.isEmpty then none
  else
    let data := dedupKeepLast rows
    let weekly := (resampleLast (fun r => weekFriday r.day) SRow.close data).map Prod.snd
    let pctChangeValues := pctChangeDropna weekly
    let upWeeks := pctChangeValues.filter fun x => decide (0 < x)
    let downWeeks := pctChangeValues.filter fun x => decide (x < 0)
    let currentPrice := (data.map SRow.close).getLastD 0
    let initialPrice := (data.map SRow.close).headD 0
    let ytdChange := (currentPrice / initialPrice - 1) * 100
    some { totalWeeks := pctChangeValues.length
           upWeeks := upWeeks.length
           downWeeks := downWeeks.length
           avgUpPct := if 0 < upWeeks.length then round2 (npMean upWeeks * 100) else 0
           avgDownPct := if 0 < downWeeks.length then round2 (npMean downWeeks * 100) else 0
           currentPrice := round2 currentPrice
           ytdChangePct := round2 ytdChange }

/-- The batch loop of `main` in `stock_analyzer.py` (lines 131-135): analyze
each input series in turn, collecting the statistics records of those
analyses that produced one. -/
def runBatch : List (List SRow) → List WeeklyStats
  | [] => []
  | d :: rest =>
    match analyze_stock d with
    | none => runBatch rest
    | some st => st :: runBatch rest

/-- A two-row, two-year series used as a concrete input below. -/
def rowsTwoYears : List Row := [⟨2020, 100⟩, ⟨2021, 106⟩]

/-- The record `analyze_yearly_returns` produces on `rowsTwoYears`. -/
def resTwoYears : YearlyResult := ⟨[6], [], [], [6], false⟩

/-- A two-row, two-week stock series used as a concrete input below. -/
def rowsTwoWeeks : List SRow := [⟨0, 8⟩, ⟨7, 9⟩]

/-- The record `analyze_stock` produces on `rowsTwoWeeks`. -/
def statsTwoWeeks : WeeklyStats := ⟨1, 1, 0, 25 / 2, 0, 9, 25 / 2⟩

/-- The three yearly masks split any list of returns: each element passes
exactly one of the three filters. -/
lemma length_filter_categories (l : List ℚ) :
    (l.filter fun r => decide (r < 0)).length
      + (l.filter fun r => decide (0 ≤ r) && decide (r < 6)).length
      + (l.filter fun r => decide (6 ≤ r)).length = l.length := by
  induction l with
  | nil => simp
  | cons a t ih =>
    rcases lt_or_le a 0 with h1 | h1
    · have h2 : ¬ 0 ≤ a := not_le.mpr h1
      have h3 : ¬ 6 ≤ a := not_le.mpr (h1.trans (by norm_num : (0 : ℚ) < 6))
      simp [List.filter_cons, h1, h2, h3]
      omega
    · rcases lt_or_le a 6 with h2 | h2
      · have h3 : ¬ a < 0 := not_lt.mpr h1
        have h4 : ¬ 6 ≤ a := not_le.mpr h2
        simp [List.filter_cons, h1, h2, h3, h4]
        omega
      · have h3 : ¬ a < 0 := not_lt.mpr h1
        have h4 : ¬ a < 6 := not_lt.mpr h2
        simp [List.filter_cons, h1, h2, h3, h4]
        omega

/-- `resampleLast` never turns a non-empty series into an empty one. -/
lemma resampleLast_ne_nil {α κ : Type} [DecidableEq κ] (key : α → κ) (val : α → ℚ)
    (a : α) (l : List α) : resampleLast key val (a :: l) ≠ [] := by
  induction l generalizing a with
  | nil => simp [resampleLast]
  | cons b u ih =>
    simp only [resampleLast]
    split
    · exact ih b
    · simp

/-- The first resampled entry carries the key of the first row. -/
lemma resampleLast_cons_head {α κ : Type} [DecidableEq κ] (key : α → κ) (val : α → ℚ)
    (b : α) (l : List α) :
    ∃ v t, resampleLast key val (b :: l) = (key b, v) :: t := by
  induction l generalizing b with
  | nil => exact ⟨val b, [], rfl⟩
  | cons c u ih =>
    by_cases h : key b = key c
    · obtain ⟨v, t, hvt⟩ := ih c
      refine ⟨v, t, ?_⟩
      simp only [resampleLast]
      rw [if_pos h, hvt, h]
    · exact ⟨val b, resampleLast key val (c :: u), by simp [resampleLast, h]⟩

/-- Every key of the resampled series comes from the input series. -/
lemma mem_resampleLast_key {α κ : Type} [DecidableEq κ] (key : α → κ) (val : α → ℚ) :
    ∀ (l : List α) (p : κ × ℚ), p ∈ resampleLast key val l → p.1 ∈ l.map key := by
  intro l
  induction l with
  | nil => intro p hp; simp [resampleLast] at hp
  | cons a rest ih =>
    intro p hp
    cases rest with
    | nil =>
      simp [resampleLast] at hp
      simp [hp]
    | cons b u =>
      simp only [resampleLast] at hp
      by_cases h : key a = key b
      · rw [if_pos h] at hp
        have := ih p hp
        simp at this ⊢
        tauto
      · rw [if_neg h] at hp
        rcases List.mem_cons.mp hp with h1 | h1
        · simp [h1]
        · have := ih p h1
          simp at this ⊢
          tauto

/-- On a series with nondecreasing keys, the resampled entry of key `y` is
exactly the value of the last row with key `y` (and there is none when no
row has key `y`). -/
lemma resampleLast_filter {α : Type} (key : α → ℕ) (val : α → ℚ) :
    ∀ (rows : List α), rows.Pairwise (fun a b => key a ≤ key b) → ∀ y : ℕ,
    (resampleLast key val rows).filter (fun p => p.1 == y)
      = ((rows.filter fun r => key r == y).getLast?).toList.map (fun r => (y, val r)) := by
  intro rows
  induction rows with
  | nil => intro _ y; simp [resampleLast]
  | cons a rest ih =>
    intro hs y
    obtain ⟨hle, hs2⟩ := List.pairwise_cons.mp hs
    cases rest with
    | nil =>
      by_cases hy : key a = y
      · simp [resampleLast, List.filter_cons, hy]
      · simp [resampleLast, List.filter_cons, hy]
    | cons b l =>
      have hkeys : ∀ x ∈ (b :: l), key b ≤ key x := by
        intro x hx
        rcases List.mem_cons.mp hx with h1 | h1
        · exact h1 ▸ le_refl _
        · exact (List.pairwise_cons.mp hs2).1 x h1
      simp only [resampleLast]
      by_cases hab : key a = key b
      · rw [if_pos hab, ih hs2 y]
        by_cases hy : key a = y
        · have hay : (key a == y) = true := by simp [hy]
          have hby : (key b == y) = true := by simp [← hab, hy]
          have hfa : (a :: b :: l).filter (fun r => key r == y)
              = a :: b :: l.filter (fun r => key r == y) := by
            rw [List.filter_cons, hay, List.filter_cons, hby]
            simp
          have hfb : (b :: l).filter (fun r => key r == y)
              = b :: l.filter (fun r => key r == y) := by
            rw [List.filter_cons, hby]
            simp
          rw [hfa, hfb]
          rfl
        · have hay : (key a == y) = false := by simp [hy]
          have hfa : (a :: b :: l).filter (fun r => key r == y)
              = (b :: l).filter (fun r => key r == y) := by
            rw [List.filter_cons, hay]
            simp
          rw [hfa]
      · have hlt : key a < key b :=
          lt_of_le_of_ne (hle b (List.mem_cons_self b l)) hab
        rw [if_neg hab]
        by_cases hy : key a = y
        · have hfilt : (resampleLast key val (b :: l)).filter (fun p => p.1 == y) = [] := by
            rw [List.filter_eq_nil_iff]
            intro p hp
            have hmem := mem_resampleLast_key key val (b :: l) p hp
            obtain ⟨x, hx, hpx⟩ := List.mem_map.mp hmem
            have hple : key b ≤ p.1 := hpx ▸ hkeys x hx
            have hne : p.1 ≠ y := by omega
            simp [hne]
          have hfilt2 : (b :: l).filter (fun r => key r == y) = [] := by
            rw [List.filter_eq_nil_iff]
            intro x hx
            have hxle : key b ≤ key x := hkeys x hx
            have hne : key x ≠ y := by omega
            simp [hne]
          have hay : (key a == y) = true := by simp [hy]
          have hlhs : ((key a, val a) :: resampleLast key val (b :: l)).filter
              (fun p => p.1 == y) = [(key a, val a)] := by
            rw [List.filter_cons]
            simp only [hay, if_pos]
            rw [hfilt]
          have hfa : (a :: b :: l).filter (fun r => key r == y) = [a] := by
            rw [List.filter_cons, hay, hfilt2]
            simp
          rw [hlhs, hfa]
          simp [hy]
        · have hay : (key a == y) = false := by simp [hy]
          rw [List.filter_cons, List.filter_cons, hay]
          simp only [Bool.false_eq_true, if_false]
          exact ih hs2 y

/-- `pct_change().dropna()` yields one entry per adjacent pair. -/
lemma pctChangeDropna_length (l : List ℚ) :
    (pctChangeDropna l).length = l.length - 1 := by
  induction l with
  | nil => simp [pctChangeDropna]
  | cons a t ih =>
    cases t with
    | nil => simp [pctChangeDropna]
    | cons b u =>
      simp only [pctChangeDropna, List.length_cons] at ih ⊢
      omega

/-- The `i`-th computed change pairs entries `i` and `i + 1` of the input. -/
lemma pctChangeDropna_getElem :
    ∀ (l : List ℚ) (i : ℕ), i + 1 < l.length →
      (pctChangeDropna l)[i]? = some (l.getD (i + 1) 0 / l.getD i 0 - 1) := by
  intro l
  induction l with
  | nil => intro i h; exact absurd h (by simp)
  | cons a t ih =>
    cases t with
    | nil => intro i h; exact absurd h (by simp)
    | cons b u =>
      intro i h
      cases i with
      | zero =>
        simp [pctChangeDropna, List.getD_cons_zero, List.getD_cons_succ]
      | succ j =>
        have h2 : j + 1 < (b :: u).length := by
          simp only [List.length_cons] at h ⊢
          omega
        simp only [pctChangeDropna, List.getElem?_cons_succ, List.getD_cons_succ]
        exact ih j h2

/-- C1: every computed yearly return is categorized `Down Year` exactly when
it is negative, `No Return` exactly when it lies in `[0, 6)` percent and
`Good Return` exactly when it is at least 6 percent, both by
`get_return_category` and by the boolean masks of `analyze_yearly_returns`;
in particular a return of exactly 0 is a `No Return` and a return of exactly
6 is a `Good Return`. -/
theorem yearly_category_boundaries :
    (∀ r : ℚ,
      ((get_return_category r = "Down Year") ↔ r < 0)
      ∧ ((get_return_category r = "No Return") ↔ 0 ≤ r ∧ r < 6)
      ∧ ((get_return_category r = "Good Return") ↔ 6 ≤ r))
    ∧ (∀ rows : List Row, ∀ r : ℚ,
      (r ∈ downYears rows ↔ r ∈ returnsPct rows ∧ r < 0)
      ∧ (r ∈ noReturnYears rows ↔ r ∈ returnsPct rows ∧ (0 ≤ r ∧ r < 6))
      ∧ (r ∈ goodReturnYears rows ↔ r ∈ returnsPct rows ∧ 6 ≤ r))
    ∧ get_return_category 0 = "No Return"
    ∧ get_return_category 6 = "Good Return" := by
  refine ⟨fun r => ⟨?_, ?_, ?_⟩, fun rows r => ⟨?_, ?_, ?_⟩, by decide, by decide⟩
  · rcases lt_or_le r 0 with h | h
    · simp [get_return_category, h]
    · rcases lt_or_le r 6 with h2 | h2
      · simp [get_return_category, not_lt.mpr h, h2, not_le.mpr h2]
      · simp [get_return_category, not_lt.mpr h, not_lt.mpr h2]
  · rcases lt_or_le r 0 with h | h
    · simp [get_return_category, h, not_le.mpr h]
    · rcases lt_or_le r 6 with h2 | h2
      · simp [get_return_category, not_lt.mpr h, h2, h]
      · simp [get_return_category, not_lt.mpr h, not_lt.mpr h2]
  · rcases lt_or_le r 0 with h | h
    · have h3 : ¬ 6 ≤ r := not_le.mpr (h.trans (by norm_num : (0 : ℚ) < 6))
      simp [get_return_category, h, h3]
    · rcases lt_or_le r 6 with h2 | h2
      · simp [get_return_category, not_lt.mpr h, h2, not_le.mpr h2]
      · simp [get_return_category, not_lt.mpr h, not_lt.mpr h2, h2]
  · simp [downYears, List.mem_filter]
  · simp [noReturnYears, List.mem_filter, and_assoc]
  · simp [goodReturnYears, List.mem_filter]

/-- C2: for every input price series the three category sublists are
pairwise disjoint and their sizes sum to the number of computed yearly
returns. -/
theorem yearly_partition_sizes_and_disjoint (rows : List Row) :
    (downYears rows).length + (noReturnYears rows).length
        + (goodReturnYears rows).length = (returnsPct rows).length
    ∧ (downYears rows) ∩ (noReturnYears rows) = []
    ∧ (downYears rows) ∩ (goodReturnYears rows) = []
    ∧ (noReturnYears rows) ∩ (goodReturnYears rows) = [] := by
  refine ⟨length_filter_categories (returnsPct rows), ?_, ?_, ?_⟩
  · rw [List.inter_eq_nil_iff_disjoint]
    intro a ha hb
    rw [downYears, List.mem_filter] at ha
    rw [noReturnYears, List.mem_filter] at hb
    have h1 : a < 0 := by simpa using ha.2
    have h2 : 0 ≤ a := by simpa using (Bool.and_elim_left hb.2)
    exact absurd h1 (not_lt.mpr h2)
  · rw [List.inter_eq_nil_iff_disjoint]
    intro a ha hb
    rw [downYears, List.mem_filter] at ha
    rw [goodReturnYears, List.mem_filter] at hb
    have h1 : a < 0 := by simpa using ha.2
    have h2 : 6 ≤ a := by simpa using hb.2
    exact absurd h1 (not_lt.mpr ((by norm_num : (0:ℚ) ≤ 6).trans h2))
  · rw [List.inter_eq_nil_iff_disjoint]
    intro a ha hb
    rw [noReturnYears, List.mem_filter] at ha
    rw [goodReturnYears, List.mem_filter] at hb
    have h1 : a < 6 := by simpa using (Bool.and_elim_right ha.2)
    have h2 : 6 ≤ a := by simpa using hb.2
    exact absurd h1 (not_lt.mpr h2)

/-- C4: on a chronologically ordered series, the year-end resampling keeps,
for each calendar year present, the close of its last listed trading day;
the computed yearly returns pair adjacent resampled year-end values as
`(yearend_i / yearend_im1 - 1) * 100`; and there is one return fewer than
there are resampled years — the first resampled year is dropped. -/
theorem yearly_resample_rule (rows : List Row)
    (hs : rows.Pairwise fun a b => a.year ≤ b.year) :
    (∀ y : ℕ,
      (resampleLast Row.year Row.close rows).filter (fun p => p.1 == y)
        = ((rows.filter fun r => r.year == y).getLast?).toList.map fun r => (y, r.close))
    ∧ (returnsPct rows).length = (yearlyData rows).length - 1
    ∧ ∀ i : ℕ, i + 1 < (yearlyData rows).length →
        (returnsPct rows)[i]?
          = some (((yearlyData rows).getD (i + 1) 0 / (yearlyData rows).getD i 0 - 1) * 100) := by
  refine ⟨resampleLast_filter Row.year Row.close rows hs, ?_, ?_⟩
  · simp [returnsPct, pctChangeDropna_length]
  · intro i hi
    rw [returnsPct, List.getElem?_map, pctChangeDropna_getElem _ i hi]
    rfl

/-- Witness for C4: `yearly_resample_rule` applied to a concrete two-year
series. -/
theorem yearly_resample_rule_witness :
    (rowsTwoYears.Pairwise fun a b => a.year ≤ b.year)
    ∧ ((∀ y : ℕ,
      (resampleLast Row.year Row.close rowsTwoYears).filter (fun p => p.1 == y)
        = ((rowsTwoYears.filter fun r => r.year == y).getLast?).toList.map fun r => (y, r.close))
    ∧ (returnsPct rowsTwoYears).length = (yearlyData rowsTwoYears).length - 1
    ∧ ∀ i : ℕ, i + 1 < (yearlyData rowsTwoYears).length →
        (returnsPct rowsTwoYears)[i]?
          = some (((yearlyData rowsTwoYears).getD (i + 1) 0
              / (yearlyData rowsTwoYears).getD i 0 - 1) * 100)) :=
  ⟨by decide, yearly_resample_rule rowsTwoYears (by decide)⟩

lemma analyze_rowsTwoYears :
    analyze_yearly_returns rowsTwoYears = some resTwoYears := by
  have hret : returnsPct rowsTwoYears = [6] := by
    simp [returnsPct, yearlyData, rowsTwoYears, resampleLast, pctChangeDropna]
    norm_num
  simp [analyze_yearly_returns, hret, pydiv, resTwoYears]

/-- C5: whenever `analyze_yearly_returns` returns at all, the caller
receives the full returns list and the three category sublists unchanged,
and the mismatch warning is printed exactly when the three sublist sizes do
not sum to the number of computed returns — the check never alters the
returned data. -/
theorem yearly_warning_nonfatal (rows : List Row) (res : YearlyResult)
    (h : analyze_yearly_returns rows = some res) :
    res.returnsPct = returnsPct rows
    ∧ res.downYears = downYears rows
    ∧ res.noReturnYears = noReturnYears rows
    ∧ res.goodReturnYears = goodReturnYears rows
    ∧ (res.warning = true ↔
        (downYears rows).length + (noReturnYears rows).length
          + (goodReturnYears rows).length ≠ (returnsPct rows).length) := by
  by_cases h0 : ((returnsPct rows).length : ℚ) = 0
  · exfalso
    simp [analyze_yearly_returns, pydiv, h0] at h
  · simp [analyze_yearly_returns, pydiv, h0] at h
    subst h
    refine ⟨rfl, rfl, rfl, rfl, ?_⟩
    simp [downYears, noReturnYears, goodReturnYears]

/-- Witness for C5: `yearly_warning_nonfatal` applied to a concrete
two-year series. -/
theorem yearly_warning_nonfatal_witness :
    analyze_yearly_returns rowsTwoYears = some resTwoYears
    ∧ (resTwoYears.returnsPct = returnsPct rowsTwoYears
      ∧ resTwoYears.downYears = downYears rowsTwoYears
      ∧ resTwoYears.noReturnYears = noReturnYears rowsTwoYears
      ∧ resTwoYears.goodReturnYears = goodReturnYears rowsTwoYears
      ∧ (resTwoYears.warning = true ↔
          (downYears rowsTwoYears).length + (noReturnYears rowsTwoYears).length
            + (goodReturnYears rowsTwoYears).length ≠ (returnsPct rowsTwoYears).length)) :=
  ⟨analyze_rowsTwoYears,
    yearly_warning_nonfatal rowsTwoYears resTwoYears analyze_rowsTwoYears⟩

/-- C10: when the resampled series has fewer than two year-end values, no
yearly return can be computed, and `analyze_yearly_returns` raises
`ZeroDivisionError` (modelled by `none`) in its percentage-breakdown prints
instead of returning empty results. -/
theorem yearly_empty_returns_division_by_zero (rows : List Row)
    (h : (yearlyData rows).length < 2) :
    analyze_yearly_returns rows = none := by
  have hlen : (returnsPct rows).length = 0 := by
    simp only [returnsPct, List.length_map, pctChangeDropna_length]
    omega
  have hcast : ((returnsPct rows).length : ℚ) = 0 := by
    rw [hlen]; norm_num
  simp [analyze_yearly_returns, pydiv, hcast]

/-- Witness for C10: a series spanning a single calendar year makes
`analyze_yearly_returns` raise. -/
theorem yearly_empty_returns_division_by_zero_witness :
    (yearlyData [⟨2020, 100⟩, ⟨2020, 110⟩]).length < 2
    ∧ analyze_yearly_returns [⟨2020, 100⟩, ⟨2020, 110⟩] = none :=
  ⟨by decide,
    yearly_empty_returns_division_by_zero [⟨2020, 100⟩, ⟨2020, 110⟩] (by decide)⟩

/-- The first observation of the rolling window at position `t` is the
series entry at index `t + 1 - w`. -/
lemma window_headD (xs : List ℚ) (w t : ℕ) (hw : 0 < w) :
    ((xs.drop (t + 1 - w)).take w).headD 0 = xs.getD (t + 1 - w) 0 := by
  rw [List.headD_eq_head?_getD, List.head?_eq_getElem?, List.getElem?_take_of_lt hw,
      List.getElem?_drop, List.getD_eq_getElem?_getD]
  norm_num

/-- The last observation of the rolling window at position `t` is the
series entry at index `t`. -/
lemma window_getLastD (xs : List ℚ) (w t : ℕ) (hw : 0 < w) (h1 : w ≤ t + 1)
    (h2 : t < xs.length) :
    ((xs.drop (t + 1 - w)).take w).getLastD 0 = xs.getD t 0 := by
  have hdl : (xs.drop (t + 1 - w)).length = xs.length - (t + 1 - w) :=
    List.length_drop _ _
  have hlen : ((xs.drop (t + 1 - w)).take w).length = w := by
    rw [List.length_take, hdl]
    omega
  rw [List.getLastD_eq_getLast?, List.getLast?_eq_getElem?, hlen,
      List.getElem?_take_of_lt (by omega : w - 1 < w), List.getElem?_drop]
  have harith : t + 1 - w + (w - 1) = t := by omega
  rw [harith, List.getD_eq_getElem?_getD]

/-- C3 (amended): for a positive window count `N`, the rolling `N`-year
annualized return at day `t` is absent exactly when fewer than `N * 252`
observations are available at `t` (so it is defined already at index
`N * 252 - 1`, not `N * 252`), and where defined it equals
`(price_t / price_at (t + 1 - N * 252)) ^ (1 / N) - 1`, a window spanning
`N * 252 - 1` day-over-day steps. -/
theorem rolling_return_window (N : ℕ) (hN : 0 < N) (xs : List ℚ) (t : ℕ) :
    (rollingReturn N xs t = none ↔ ¬ (t < xs.length ∧ N * 252 ≤ t + 1))
    ∧ (N * 252 ≤ t + 1 → t < xs.length →
        rollingReturn N xs t
          = some ((((xs.getD t 0 : ℚ) : ℝ) / ((xs.getD (t + 1 - N * 252) 0 : ℚ) : ℝ))
              ^ ((1 : ℝ) / (N : ℝ)) - 1)) := by
  constructor
  · constructor
    · intro h hcond
      rw [rollingReturn, rollingApply, if_pos hcond] at h
      exact Option.some_ne_none _ h
    · intro h
      rw [rollingReturn, rollingApply, if_neg h]
  · intro h1 h2
    have hw : 0 < N * 252 := Nat.mul_pos hN (by norm_num)
    rw [rollingReturn, rollingApply, if_pos ⟨h2, h1⟩]
    rw [window_getLastD xs (N * 252) t hw h1 h2, window_headD xs (N * 252) t hw]

/-- Witness for C3: `rolling_return_window` at `N = 5` on a constant
series of 1260 observations, read at index 1259. -/
theorem rolling_return_window_witness :
    0 < 5
    ∧ ((rollingReturn 5 (List.replicate 1260 (1 : ℚ)) 1259 = none
        ↔ ¬ (1259 < (List.replicate 1260 (1 : ℚ)).length ∧ 5 * 252 ≤ 1259 + 1))
      ∧ (5 * 252 ≤ 1259 + 1 → 1259 < (List.replicate 1260 (1 : ℚ)).length →
          rollingReturn 5 (List.replicate 1260 (1 : ℚ)) 1259
            = some (((((List.replicate 1260 (1 : ℚ)).getD 1259 0 : ℚ) : ℝ)
                / (((List.replicate 1260 (1 : ℚ)).getD (1259 + 1 - 5 * 252) 0 : ℚ) : ℝ))
                ^ ((1 : ℝ) / ((5 : ℕ) : ℝ)) - 1))) :=
  ⟨by decide, rolling_return_window 5 (by decide) (List.replicate 1260 (1 : ℚ)) 1259⟩

/-- Counterexample to C3 as stated: with `N = 5` the claim places the first
defined rolling value at index `N * 252 = 1260`, but on a 1260-observation
series the code already produces a value at index `1259 < 5 * 252`. -/
theorem rolling_return_defined_before_claimed_start :
    1259 < 5 * 252
    ∧ rollingReturn 5 (List.replicate 1260 (1 : ℚ)) 1259 ≠ none := by
  refine ⟨by norm_num, ?_⟩
  rw [rollingReturn, rollingApply,
    if_pos (⟨by rw [List.length_replicate]; norm_num, by norm_num⟩ :
      1259 < (List.replicate 1260 (1 : ℚ)).length ∧ 5 * 252 ≤ 1259 + 1)]
  exact Option.some_ne_none _

/-- The sign masks of `analyze_stock` split any list of changes: each
element is positive, negative or zero. -/
lemma length_filter_sign (l : List ℚ) :
    (l.filter fun x => decide (0 < x)).length
      + (l.filter fun x => decide (x < 0)).length
      + (l.filter fun x => decide (x = 0)).length = l.length := by
  induction l with
  | nil => simp
  | cons a t ih =>
    rcases lt_trichotomy a 0 with h1 | h1 | h1
    · have h2 : ¬ 0 < a := not_lt.mpr h1.le
      have h3 : a ≠ 0 := ne_of_lt h1
      simp [List.filter_cons, h1, h2, h3]
      omega
    · simp [List.filter_cons, h1]
      omega
    · have h2 : ¬ a < 0 := not_lt.mpr h1.le
      have h3 : a ≠ 0 := ne_of_gt h1
      simp [List.filter_cons, h1, h2, h3]
      omega

lemma getLast?_cons_of_ne_nil {α : Type} (a : α) (l : List α) (h : l ≠ []) :
    (a :: l).getLast? = l.getLast? := by
  cases l with
  | nil => exact absurd rfl h
  | cons b u => rfl

/-- Deduplication only drops rows. -/
lemma mem_dedupKeepLast (s : SRow) :
    ∀ rows : List SRow, s ∈ dedupKeepLast rows → s ∈ rows := by
  intro rows
  induction rows with
  | nil => intro h; simp [dedupKeepLast] at h
  | cons a rest ih =>
    intro h
    simp only [dedupKeepLast] at h
    split at h
    · exact List.mem_cons_of_mem a (ih h)
    · rcases List.mem_cons.mp h with h1 | h1
      · exact h1 ▸ List.mem_cons_self a rest
      · exact List.mem_cons_of_mem a (ih h1)

/-- `keep='last'` deduplication keeps, for each timestamp, exactly the last
row listed with that timestamp. -/
lemma dedupKeepLast_filter (d : ℕ) :
    ∀ rows : List SRow,
    (dedupKeepLast rows).filter (fun s => s.day == d)
      = ((rows.filter fun s => s.day == d).getLast?).toList := by
  intro rows
  induction rows with
  | nil => simp [dedupKeepLast]
  | cons a rest ih =>
    simp only [dedupKeepLast]
    by_cases hdup : rest.any (fun b => b.day == a.day)
    · rw [if_pos hdup]
      by_cases had : a.day = d
      · have hex : ∃ b ∈ rest, b.day = a.day := by
          simpa using hdup
        obtain ⟨b, hb, hbd⟩ := hex
        have hbmem : b ∈ rest.filter (fun s => s.day == d) := by
          rw [List.mem_filter]
          exact ⟨hb, by simp [hbd, had]⟩
        have hne : rest.filter (fun s => s.day == d) ≠ [] :=
          List.ne_nil_of_mem hbmem
        rw [List.filter_cons]
        simp only [had, beq_self_eq_true, if_pos]
        rw [getLast?_cons_of_ne_nil a _ hne]
        exact ih
      · have had2 : (a.day == d) = false := by simp [had]
        rw [List.filter_cons, had2]
        simp only [Bool.false_eq_true, if_false]
        exact ih
    · rw [if_neg hdup]
      have hnone : ∀ b ∈ rest, b.day ≠ a.day := by
        intro b hb
        by_contra hc
        exact hdup (List.any_eq_true.mpr ⟨b, hb, by simp [hc]⟩)
      by_cases had : a.day = d
      · have hrest : rest.filter (fun s => s.day == d) = [] := by
          rw [List.filter_eq_nil_iff]
          intro b hb
          have := hnone b hb
          simp [had ▸ this]
        have hdrest : (dedupKeepLast rest).filter (fun s => s.day == d) = [] := by
          rw [List.filter_eq_nil_iff]
          intro b hb
          have := hnone b (mem_dedupKeepLast b rest hb)
          simp [had ▸ this]
        rw [List.filter_cons, List.filter_cons]
        simp only [had, beq_self_eq_true, if_pos]
        rw [hdrest, hrest]
        rfl
      · have had2 : (a.day == d) = false := by simp [had]
        rw [List.filter_cons, List.filter_cons, had2]
        simp only [Bool.false_eq_true, if_false]
        exact ih

lemma dedupKeepLast_ne_nil (a : SRow) (l : List SRow) :
    dedupKeepLast (a :: l) ≠ [] := by
  induction l generalizing a with
  | nil => simp [dedupKeepLast]
  | cons b u ih =>
    simp only [dedupKeepLast]
    split
    · exact ih b
    · simp

/-- Deduplication never drops the final row, so the last close survives. -/
lemma dedupKeepLast_getLast? :
    ∀ rows : List SRow, (dedupKeepLast rows).getLast? = rows.getLast? := by
  intro rows
  induction rows with
  | nil => rfl
  | cons a rest ih =>
    simp only [dedupKeepLast]
    by_cases hdup : rest.any (fun b => b.day == a.day)
    · rw [if_pos hdup]
      have hne : rest ≠ [] := by
        intro hc
        rw [hc] at hdup
        simp at hdup
      rw [ih, getLast?_cons_of_ne_nil a rest hne]
    · rw [if_neg hdup]
      cases rest with
      | nil => rfl
      | cons b u =>
        rw [getLast?_cons_of_ne_nil a _ (dedupKeepLast_ne_nil b u),
          ih, getLast?_cons_of_ne_nil a _ (by simp)]

/-- The record `analyze_stock` returns on a non-empty series, with every
field written out. -/
lemma analyze_stock_eq (rows : List SRow) (st : WeeklyStats)
    (h : analyze_stock rows = some st) :
    st = { totalWeeks := (weeklyPct rows).length
           upWeeks := ((weeklyPct rows).filter fun x => decide (0 < x)).length
           downWeeks := ((weeklyPct rows).filter fun x => decide (x < 0)).length
           avgUpPct := if 0 < ((weeklyPct rows).filter fun x => decide (0 < x)).length
             then round2 (npMean ((weeklyPct rows).filter fun x => decide (0 < x)) * 100)
             else 0
           avgDownPct := if 0 < ((weeklyPct rows).filter fun x => decide (x < 0)).length
             then round2 (npMean ((weeklyPct rows).filter fun x => decide (x < 0)) * 100)
             else 0
           currentPrice := round2 (((dedupKeepLast rows).map SRow.close).getLastD 0)
           ytdChangePct := round2 ((((dedupKeepLast rows).map SRow.close).getLastD 0
             / ((dedupKeepLast rows).map SRow.close).headD 0 - 1) * 100) } := by
  cases rows with
  | nil => simp [analyze_stock] at h
  | cons a rest =>
    simp only [analyze_stock, List.isEmpty_cons, Bool.false_eq_true, if_false,
      Option.some.injEq] at h
    exact h.symm

/-- C6: in `analyze_stock`, deduplication happens before resampling (the
weekly series is resampled from the deduplicated rows), and for each
timestamp the deduplicated data holds exactly the last row listed with that
timestamp, so the resampler sees the later-listed close value. -/
theorem weekly_dedup_before_resample (rows : List SRow) (d : ℕ) :
    (dedupKeepLast rows).filter (fun s => s.day == d)
      = ((rows.filter fun s => s.day == d).getLast?).toList
    ∧ weeklySeries rows
      = (resampleLast (fun r => weekFriday r.day) SRow.close (dedupKeepLast rows)).map
          Prod.snd :=
  ⟨dedupKeepLast_filter d rows, rfl⟩

/-- C7: the up-week partition holds exactly the positive weekly changes, the
down-week partition exactly the negative ones, zero changes land in neither
but still count into `totalWeeks`, so up + down + zero-changes = total. -/
theorem weekly_partition_signs (rows : List SRow) (st : WeeklyStats)
    (h : analyze_stock rows = some st) :
    st.totalWeeks = (weeklyPct rows).length
    ∧ st.upWeeks = ((weeklyPct rows).filter fun x => decide (0 < x)).length
    ∧ st.downWeeks = ((weeklyPct rows).filter fun x => decide (x < 0)).length
    ∧ (∀ x : ℚ,
        (x ∈ (weeklyPct rows).filter (fun x => decide (0 < x))
          ↔ x ∈ weeklyPct rows ∧ 0 < x)
        ∧ (x ∈ (weeklyPct rows).filter (fun x => decide (x < 0))
          ↔ x ∈ weeklyPct rows ∧ x < 0))
    ∧ st.upWeeks + st.downWeeks
        + ((weeklyPct rows).filter fun x => decide (x = 0)).length = st.totalWeeks := by
  have he := analyze_stock_eq rows st h
  subst he
  refine ⟨rfl, rfl, rfl, ?_, length_filter_sign (weeklyPct rows)⟩
  intro x
  constructor
  · simp [List.mem_filter]
  · simp [List.mem_filter]

lemma analyze_rowsTwoWeeks :
    analyze_stock rowsTwoWeeks = some statsTwoWeeks := by
  simp [analyze_stock, rowsTwoWeeks, statsTwoWeeks, dedupKeepLast, resampleLast,
    weekFriday, pctChangeDropna, npMean]
  norm_num [round2, roundHalfEven, Int.even_iff]

/-- Witness for C7: `weekly_partition_signs` on a concrete two-week
series. -/
theorem weekly_partition_signs_witness :
    analyze_stock rowsTwoWeeks = some statsTwoWeeks
    ∧ (statsTwoWeeks.totalWeeks = (weeklyPct rowsTwoWeeks).length
    ∧ statsTwoWeeks.upWeeks
        = ((weeklyPct rowsTwoWeeks).filter fun x => decide (0 < x)).length
    ∧ statsTwoWeeks.downWeeks
        = ((weeklyPct rowsTwoWeeks).filter fun x => decide (x < 0)).length
    ∧ (∀ x : ℚ,
        (x ∈ (weeklyPct rowsTwoWeeks).filter (fun x => decide (0 < x))
          ↔ x ∈ weeklyPct rowsTwoWeeks ∧ 0 < x)
        ∧ (x ∈ (weeklyPct rowsTwoWeeks).filter (fun x => decide (x < 0))
          ↔ x ∈ weeklyPct rowsTwoWeeks ∧ x < 0))
    ∧ statsTwoWeeks.upWeeks + statsTwoWeeks.downWeeks
        + ((weeklyPct rowsTwoWeeks).filter fun x => decide (x = 0)).length
        = statsTwoWeeks.totalWeeks) :=
  ⟨analyze_rowsTwoWeeks,
    weekly_partition_signs rowsTwoWeeks statsTwoWeeks analyze_rowsTwoWeeks⟩

/-- C8 (amended): the reported averages are the arithmetic means of the
partitions (in percent) rounded to two decimals, 0 when the partition is
empty; the reported current price is the last close of the series rounded to
two decimals; and the period-to-date change is
`(last_close / first_close - 1) * 100` over the deduplicated series, rounded
to two decimals. -/
theorem weekly_stats_formulas (rows : List SRow) (st : WeeklyStats)
    (h : analyze_stock rows = some st) :
    st.avgUpPct = (if 0 < ((weeklyPct rows).filter fun x => decide (0 < x)).length
        then round2 (npMean ((weeklyPct rows).filter fun x => decide (0 < x)) * 100)
        else 0)
    ∧ st.avgDownPct = (if 0 < ((weeklyPct rows).filter fun x => decide (x < 0)).length
        then round2 (npMean ((weeklyPct rows).filter fun x => decide (x < 0)) * 100)
        else 0)
    ∧ st.currentPrice = round2 ((rows.map SRow.close).getLastD 0)
    ∧ st.ytdChangePct = round2 ((((dedupKeepLast rows).map SRow.close).getLastD 0
        / ((dedupKeepLast rows).map SRow.close).headD 0 - 1) * 100) := by
  have he := analyze_stock_eq rows st h
  subst he
  refine ⟨rfl, rfl, ?_, rfl⟩
  have hlast : ((dedupKeepLast rows).map SRow.close).getLastD 0
      = (rows.map SRow.close).getLastD 0 := by
    rw [List.getLastD_eq_getLast?, List.getLastD_eq_getLast?, List.getLast?_map,
      List.getLast?_map, dedupKeepLast_getLast?]
  rw [hlast]

/-- Witness for C8: `weekly_stats_formulas` on a concrete two-week
series. -/
theorem weekly_stats_formulas_witness :
    analyze_stock rowsTwoWeeks = some statsTwoWeeks
    ∧ (statsTwoWeeks.avgUpPct
        = (if 0 < ((weeklyPct rowsTwoWeeks).filter fun x => decide (0 < x)).length
            then round2
              (npMean ((weeklyPct rowsTwoWeeks).filter fun x => decide (0 < x)) * 100)
            else 0)
    ∧ statsTwoWeeks.avgDownPct
        = (if 0 < ((weeklyPct rowsTwoWeeks).filter fun x => decide (x < 0)).length
            then round2
              (npMean ((weeklyPct rowsTwoWeeks).filter fun x => decide (x < 0)) * 100)
            else 0)
    ∧ statsTwoWeeks.currentPrice = round2 ((rowsTwoWeeks.map SRow.close).getLastD 0)
    ∧ statsTwoWeeks.ytdChangePct
        = round2 ((((dedupKeepLast rowsTwoWeeks).map SRow.close).getLastD 0
            / ((dedupKeepLast rowsTwoWeeks).map SRow.close).headD 0 - 1) * 100)) :=
  ⟨analyze_rowsTwoWeeks,
    weekly_stats_formulas rowsTwoWeeks statsTwoWeeks analyze_rowsTwoWeeks⟩

/-- Counterexample to C8 as stated: on closes `[8, 1/8]` the last close is
`1/8 = 0.125`, but the reported current price is the rounded `0.12`, so
`current_price` does not equal the last close in the series. -/
theorem weekly_current_price_not_last_close :
    (analyze_stock [⟨0, 8⟩, ⟨1, 1 / 8⟩]).map WeeklyStats.currentPrice = some (3 / 25)
    ∧ (([⟨0, 8⟩, ⟨1, 1 / 8⟩] : List SRow).map SRow.close).getLastD 0 = 1 / 8
    ∧ ((3 : ℚ) / 25) ≠ 1 / 8 := by
  refine ⟨?_, by norm_num [List.getLastD_eq_getLast?], by norm_num⟩
  simp [analyze_stock, dedupKeepLast, resampleLast, weekFriday, pctChangeDropna, npMean]
  norm_num [round2, roundHalfEven, Int.even_iff]

/-- C9: an empty input series yields the "no data" outcome `none` rather
than an exception, and the batch loop of `main` skips it and still analyzes
every remaining instrument. -/
theorem weekly_empty_series_skipped :
    analyze_stock ([] : List SRow) = none
    ∧ ∀ pre post : List (List SRow),
        runBatch (pre ++ [] :: post) = runBatch pre ++ runBatch post := by
  refine ⟨rfl, ?_⟩
  intro pre post
  induction pre with
  | nil => simp [runBatch, analyze_stock]
  | cons dat ds ih =>
    simp only [List.cons_append, runBatch]
    cases analyze_stock dat <;> simp [ih]

